import Mathlib

set_option maxRecDepth 100000

/-!
Verification development for the GA4GH server repository: a shallow
embedding of the schema-processing script (scripts/process_schemas.py),
the server configuration module (ga4gh/serverconfig.py), and — where the
corresponding modules are pinned only by the repository's unit tests —
spec-modelled definitions of the exception taxonomy, the central
exception handler and the runtime protocol object model.
-/

/-! ## String utilities shared by several embeddings -/

/-- A single-quote character, built from its code point so that quote
characters never appear literally inside string literals. -/
def squote : String := String.singleton (Char.ofNat 39)

/-- `occListAux pat s` lists every index `i` at which the pattern `pat`
occurs as a contiguous block of `s` (both as character lists). -/
def occList (pat s : List Char) : List Nat :=
  (List.range (s.length + 1)).filter (fun i => pat.isPrefixOf (s.drop i))

/-- `containsSubstr s pat` holds when `pat` occurs contiguously in `s`
(the semantics of Python `pat in s`). -/
def containsSubstr (s pat : String) : Bool :=
  (occList pat.data s.data) ≠ []

/-- Number of (possibly overlapping) occurrences of `pat` in `s`.  For the
patterns counted in this development, occurrences never overlap, so this
agrees with Python `s.count(pat)`. -/
def countOccurrences (s pat : String) : Nat :=
  (occList pat.data s.data).length

/-- ASCII lower-casing of one character (the effect of Python `str.lower`
on the ASCII-only class names that appear in the schemas). -/
def lowerChar (c : Char) : Char :=
  if 65 ≤ c.toNat ∧ c.toNat ≤ 90 then Char.ofNat (c.toNat + 32) else c

/-- ASCII lower-casing of a string. -/
def strLower (s : String) : String := String.mk (s.data.map lowerChar)

/-! ## The Avro schema model

`avro.schema.parse` produces a tree of schema objects; the script only
inspects the constructors below (`PrimitiveSchema`, `RecordSchema`,
`EnumSchema`, `ArraySchema`, `MapSchema`, `UnionSchema`, `FixedSchema`).
A record field carries a name, a type, and whether the declaration had a
default value (`has_default`), plus the printed form of that default. -/

mutual

inductive AvroSchema where
  | primitive (ty : String)
  | record (name : String) (fields : List AvroField)
  | enumeration (name : String) (symbols : List String)
  | array (items : AvroSchema)
  | mapping (values : AvroSchema)
  | union (schemas : List AvroSchema)
  | fixedSize (name : String) (size : Nat)

inductive AvroField where
  | mk (name : String) (ty : AvroSchema) (hasDefault : Bool) (dflt : String)

end

/-- Field name accessor (`field.name`). -/
def AvroField.name : AvroField → String
  | .mk n _ _ _ => n

/-- Field type accessor (`field.type`). -/
def AvroField.ftype : AvroField → AvroSchema
  | .mk _ t _ _ => t

/-- Field default-presence accessor (`field.has_default`). -/
def AvroField.hasDefault : AvroField → Bool
  | .mk _ _ d _ => d

/-- Printed default accessor (`field.default`). -/
def AvroField.dflt : AvroField → String
  | .mk _ _ _ d => d

/-- The name of a schema (`schema.name`; primitives report their type). -/
def schemaName : AvroSchema → String
  | .primitive t => t
  | .record n _ => n
  | .enumeration n _ => n
  | .array _ => "array"
  | .mapping _ => "map"
  | .union _ => "union"
  | .fixedSize n _ => n

/-- Lexicographic code-point comparison of character lists — the
ordering Python's `sorted` applies to strings. -/
def charListLe : List Char → List Char → Bool
  | [], _ => true
  | _ :: _, [] => false
  | a :: as, b :: bs =>
    if a.toNat < b.toNat then true
    else if b.toNat < a.toNat then false
    else charListLe as bs

/-- Python string comparison `a <= b`. -/
def strLe (a b : String) : Bool := charListLe a.data b.data

/-- Stable insertion of `x` into `l` before the first element `y` with
`le x y` (helper for the embedding of Python's stable `sorted`). -/
def insertLe {α : Type} (le : α → α → Bool) (x : α) : List α → List α
  | [] => [x]
  | y :: ys => if le x y then x :: y :: ys else y :: insertLe le x ys

/-- Stable ascending sort (the embedding of Python's `sorted`). -/
def sortLe {α : Type} (le : α → α → Bool) (l : List α) : List α :=
  l.foldr (insertLe le) []

/-- `SchemaClass.getFields`: the record's fields sorted by name
(`sorted(self.schema.fields, key=lambda f: f.name)`); empty for
non-record schemas (the script never calls it on those). -/
def getFields : AvroSchema → List AvroField
  | .record _ fields => sortLe (fun f g => strLe f.name g.name) fields
  | _ => []

/-- `isinstance(t, avro.schema.PrimitiveSchema) and t.type == "null"`. -/
def isNullPrimitive : AvroSchema → Bool
  | .primitive t => t == "null"
  | _ => false

/-- The loop body of `SchemaClass.getEmbeddedTypes`: walk the sorted
fields in order; arrays of records and direct records contribute a pair;
for unions the code reads `schemas[0]` and `schemas[1]` unconditionally
(an `IndexError` if the union has fewer than two branches), then appends
a pair when branch 0 is the null primitive and branch 1 is a record,
silently skips when branch 1 is not a record, and raises
`Exception("Schema union assumptions violated")` when branch 0 is not
the null primitive.  The first failing field aborts the whole loop. -/
def embLoop : List AvroField → Except String (List (String × String))
  | [] => .ok []
  | f :: rest =>
    match f.ftype with
    | .array (.record rn _) => (embLoop rest).map (fun r => (f.name, rn) :: r)
    | .record rn _ => (embLoop rest).map (fun r => (f.name, rn) :: r)
    | .union (t0 :: t1 :: _) =>
      if isNullPrimitive t0 then
        match t1 with
        | .record rn _ => (embLoop rest).map (fun r => (f.name, rn) :: r)
        | _ => embLoop rest
      else
        .error "Schema union assumptions violated"
    | .union _ => .error "IndexError: list index out of range"
    | _ => embLoop rest

/-- `SchemaClass.getEmbeddedTypes`: for a record schema, run the loop
over the sorted fields; for any other schema kind return the empty
list. -/
def getEmbeddedTypes (s : AvroSchema) : Except String (List (String × String)) :=
  match s with
  | .record _ _ => embLoop (getFields s)
  | _ => .ok []

/-- The field-collecting loop of `SchemaClass.formatRequiredFields`:
the sorted fields whose declaration carries no default value. -/
def requiredFieldsList (s : AvroSchema) : List AvroField :=
  (getFields s).filter (fun f => f.hasDefault = false)

/-- The names of the required fields (the contents of the emitted
`requiredFields` set). -/
def requiredFieldNames (s : AvroSchema) : List String :=
  (requiredFieldsList s).map AvroField.name

/-- `SchemaClass.formatRequiredFields`: the literal Python source text of
the `requiredFields` set. -/
def formatRequiredFields (s : AvroSchema) : String :=
  let fields := requiredFieldsList s
  if fields.length < 2 then
    "set([" ++ String.join (fields.map (fun f => "\"" ++ f.name ++ "\"")) ++ "])"
  else
    "set([\n" ++ String.join (fields.map (fun f => "        \"" ++ f.name ++ "\",\n"))
      ++ "    ])"

/-! ## Claim-side characterisations of embedded-type extraction

These two definitions follow the words of the specification and of claim
C1, to be compared against `getEmbeddedTypes` above. -/

/-- The claim's embedded-field characterisation, exactly as stated:
(i) a direct record, (ii) an array of records, or (iii) a TWO-branch
union whose first branch is the null primitive and whose second branch
is a record. -/
def claimedEmbedded (f : AvroField) : Option String :=
  match f.ftype with
  | .record rn _ => some rn
  | .array (.record rn _) => some rn
  | .union [t0, .record rn _] => if isNullPrimitive t0 then some rn else none
  | _ => none

/-- The pairs that claim C1 says `getEmbeddedTypes` returns. -/
def claimedPairs (s : AvroSchema) : List (String × String) :=
  (getFields s).filterMap (fun f => (claimedEmbedded f).map (fun rn => (f.name, rn)))

/-- The amended embedded-field characterisation: same as the claim's,
except that the union case requires only that the union have AT LEAST
two branches, with the null primitive first and a record second; any
additional branches are ignored by the code. -/
def amendedEmbedded (f : AvroField) : Option String :=
  match f.ftype with
  | .record rn _ => some rn
  | .array (.record rn _) => some rn
  | .union (t0 :: .record rn _ :: _) => if isNullPrimitive t0 then some rn else none
  | _ => none

/-- A field's type passes union-shape checking: non-union fields always
do; a union field passes exactly when it has at least two branches and
its first branch is the null primitive. -/
def unionShapeOk (f : AvroField) : Bool :=
  match f.ftype with
  | .union (t0 :: _ :: _) => isNullPrimitive t0
  | .union _ => false
  | _ => true

/-- The pairs the amended claim says `getEmbeddedTypes` returns. -/
def amendedPairs (s : AvroSchema) : List (String × String) :=
  (getFields s).filterMap (fun f => (amendedEmbedded f).map (fun rn => (f.name, rn)))

/-! ## Route-pair derivation (SchemaGenerator.__init__)

`re.search('Search.+Request', name)` succeeds exactly when some
occurrence of `Search` is followed, at distance at least one character,
by an occurrence of `Request`.  `re.search('Search(.+)Request', name)`
additionally captures the leftmost-start, greedy group: the match starts
at the least occurrence `i` of `Search` admitting a later `Request`, and
the greedy `.+` extends the group to the greatest occurrence `j` of
`Request` with `j >= i + 7`.  Class names contain no newline, so `.` is
modelled as any character. -/

/-- The leftmost-start, greedy span of `Search(.+)<trailer>` in `s`:
`some (i, j)` with `i` the start of the `Search` occurrence and `j` the
start of the trailer occurrence delimiting the group. -/
def searchSpan (trailer : List Char) (s : List Char) : Option (Nat × Nat) :=
  match (occList "Search".data s).filter
      (fun i => (occList trailer s).any (fun j => i + 7 ≤ j)) with
  | [] => none
  | i :: _ =>
    match ((occList trailer s).filter (fun j => i + 7 ≤ j)).getLast? with
    | some j => some (i, j)
    | none => none

/-- The captured group of `re.search('Search(.+)<trailer>', s)`. -/
def searchGroup (trailer : String) (s : String) : Option String :=
  match searchSpan trailer.data s.data with
  | some (i, j) => some (String.mk ((s.data.drop (i + 6)).take (j - (i + 6))))
  | none => none

/-- Truthiness of `re.search('Search.+Request', s)`. -/
def matchesSearchRequest (s : String) : Bool :=
  (searchGroup "Request" s).isSome

/-- Truthiness of `re.search('Search.+Response', s)`. -/
def matchesSearchResponse (s : String) : Bool :=
  (searchGroup "Response" s).isSome

/-- `self.requestClassNames`: the class names matching
`Search.+Request`, in encounter order. -/
def requestClassNames (names : List String) : List String :=
  names.filter matchesSearchRequest

/-- `self.responseClassNames`: the class names matching
`Search.+Response`, in encounter order. -/
def responseClassNames (names : List String) : List String :=
  names.filter matchesSearchResponse

/-- The wire path built from one request class name:
`'/{0}/search'.format(objname.lower())` with `objname` the captured
group.  The `none` branch is unreachable for names drawn from
`requestClassNames`. -/
def mkSearchUrl (request : String) : String :=
  match searchGroup "Request" request with
  | some objname => "/" ++ strLower objname ++ "/search"
  | none => ""

/-- `self.postSignatures`: `zip` the request and response name lists
positionally and attach the wire path derived from the request name. -/
def postSignatures (names : List String) : List (String × String × String) :=
  ((requestClassNames names).zip (responseClassNames names)).map
    (fun p => (mkSearchUrl p.1, p.1, p.2))

/-! ## The generator write pass (SchemaGenerator.write)

Emission is modelled at the granularity of the script's `print`/`write`
calls, each becoming one `Chunk`; the chunk payloads record the data the
script interpolates into the emitted text.  What matters for claim C9 is
the order of the writes and the exact point at which
`getEmbeddedTypes` can raise: inside
`writeEmbeddedTypesClassMethods`, after the class header, schema source
and `requiredFields` lines are already written and after the two
`@classmethod` prologue lines are printed. -/

/-- One unit of emitted output. -/
inductive Chunk where
  | header (version : String)
  | classDef (name : String) (superclass : String)
  | docString (doc : String)
  | schemaSource (name : String)
  | requiredFields (text : String)
  | embeddedPrologue
  | embeddedTypes (pairs : List (String × String))
  | constructorDef (fieldNames : List String)
  | enumSymbols (symbols : List String)
  | postMethods (sigs : List (String × String × String))
deriving DecidableEq

/-- A parsed schema file (`SchemaClass`): the script keeps the parsed
schema and exposes `self.name = self.schema.name`. -/
structure SchemaClass where
  schema : AvroSchema

/-- `SchemaClass.name`. -/
def SchemaClass.name (c : SchemaClass) : String := schemaName c.schema

/-- `SchemaClass.write`: the chunks this class writes, together with the
error aborting the write, if any.  Records write the class line, doc
string, schema source, `requiredFields` and then the embedded-types
methods — whose prologue is printed before `getEmbeddedTypes` runs, so
an extraction error leaves the prologue already written and skips the
constructor.  Enumerations write the class line, doc string and one
constant per symbol.  Other schema kinds write only the class line and
doc string. -/
def classChunks (c : SchemaClass) : List Chunk × Option String :=
  match c.schema with
  | .record n _ =>
    let pre : List Chunk :=
      [.classDef n "ProtocolElement", .docString "No documentation",
       .schemaSource n, .requiredFields (formatRequiredFields c.schema),
       .embeddedPrologue]
    match getEmbeddedTypes c.schema with
    | .ok pairs =>
      (pre ++ [.embeddedTypes pairs,
               .constructorDef ((getFields c.schema).map AvroField.name)], none)
    | .error e => (pre, some e)
  | .enumeration n syms =>
    ([.classDef n "object", .docString "No documentation", .enumSymbols syms], none)
  | s =>
    ([.classDef (schemaName s) "ProtocolElement", .docString "No documentation"], none)

/-- `classes[name]` where `classes = dict([(cls.name, cls) for cls in
self.classes])`: a Python dict keeps the LAST class for a repeated
name. -/
def classForName (cs : List SchemaClass) (n : String) : Option SchemaClass :=
  (cs.filter (fun c => c.name == n)).getLast?

/-- The sorted-name emission loop of `SchemaGenerator.write`: write each
named class in turn, stopping at the first error and keeping the chunks
already written. -/
def writeClasses (cs : List SchemaClass) : List String → List Chunk × Option String
  | [] => ([], none)
  | n :: rest =>
    match classForName cs n with
    | none => writeClasses cs rest
    | some c =>
      match classChunks c with
      | (chunks, none) =>
        let res := writeClasses cs rest
        (chunks ++ res.1, res.2)
      | (chunks, some e) => (chunks, some e)

/-- `SchemaGenerator.write`: the header line, then every class in sorted
name order, then — only if no class aborted — the `postMethods` table
derived from the encounter-order class names. -/
def generatorWrite (version : String) (cs : List SchemaClass) :
    List Chunk × Option String :=
  let body := writeClasses cs (sortLe strLe (cs.map SchemaClass.name))
  match body.2 with
  | none =>
    (Chunk.header version :: body.1
       ++ [Chunk.postMethods (postSignatures (cs.map SchemaClass.name))], none)
  | some e => (Chunk.header version :: body.1, some e)

/-! ## The exception taxonomy and central handler

`ga4gh/exceptions.py` and `ga4gh/frontend.py` are not part of the
provided sources; only their unit tests
(`src/tests/unit/test_exceptions.py`) are.  The taxonomy and handler are
therefore modelled from the specification, pinned by those tests. -/

/-- Modelled from the spec: the closed exception taxonomy of
`ga4gh/exceptions.py` (absent from src/), one constructor per exception
kind named by the spec and by the unit tests. -/
inductive ExceptionKind where
  | baseServerException
  | objectNotFoundException
  | callSetNotInVariantSetException
  | requestValidationFailureException
  | responseValidationFailureException
  | notImplementedException
  | serverError
deriving DecidableEq

/-- Modelled from the spec: `getErrorCode` — every kind carries a
non-null numeric code, pairwise distinct across the taxonomy (the
invariant checked by `TestExceptionConsistency.testCodeInvariants`). -/
def getErrorCode : ExceptionKind → Option Int
  | .baseServerException => some 0
  | .objectNotFoundException => some 1
  | .callSetNotInVariantSetException => some 2
  | .requestValidationFailureException => some 3
  | .responseValidationFailureException => some 4
  | .notImplementedException => some 5
  | .serverError => some 6

/-- Modelled from the spec: the transport status code associated with
each exception kind (404 for not-found kinds, 400 for request
validation, 500 for response validation and the server error, 501 for
not-implemented). -/
def statusOf : ExceptionKind → Nat
  | .baseServerException => 500
  | .objectNotFoundException => 404
  | .callSetNotInVariantSetException => 404
  | .requestValidationFailureException => 400
  | .responseValidationFailureException => 500
  | .notImplementedException => 501
  | .serverError => 500

/-- Modelled from the spec: the fixed message of the `ServerError`
kind. -/
def serverErrorMessage : String := "Internal Server Error"

/-- The wire error envelope: `{"code": <int>, "message": <string>}`. -/
structure GAExceptionBody where
  code : Int
  message : String
deriving DecidableEq

/-- An exception reaching the central handler: either a member of the
taxonomy carrying its formatted message, or any other Python exception
(its class name and its own message). -/
inductive CaughtException where
  | member (k : ExceptionKind) (message : String)
  | foreign (className : String) (message : String)

/-- Modelled from the spec: `frontend.handleException` — a taxonomy
member maps to its own status and `{code, message}`; any exception
outside the taxonomy is replaced by the `ServerError` descriptor with
status 500 and the fixed message, never consulting the original
exception's message. -/
def handleException : CaughtException → Nat × GAExceptionBody
  | .member k msg => (statusOf k, ⟨(getErrorCode k).getD 0, msg⟩)
  | .foreign _ _ => (statusOf .serverError,
      ⟨(getErrorCode .serverError).getD 0, serverErrorMessage⟩)

/-! ## Server configuration (ga4gh/serverconfig.py) -/

/-- The configuration surface consumed by the boundary. -/
structure ServerConfig where
  MAX_CONTENT_LENGTH : Nat
  REQUEST_VALIDATION : Bool
  RESPONSE_VALIDATION : Bool
  TESTING : Bool

/-- `DefaultConfig`: the simplest default server configuration. -/
def DefaultConfig : ServerConfig :=
  { MAX_CONTENT_LENGTH := 2 * 1024 * 1024
    REQUEST_VALIDATION := false
    RESPONSE_VALIDATION := false
    TESTING := false }

/-- `TestConfig(DefaultConfig)`: overrides `TESTING` and enables both
validation flags, inheriting everything else. -/
def TestConfig : ServerConfig :=
  { DefaultConfig with
    TESTING := true
    REQUEST_VALIDATION := true
    RESPONSE_VALIDATION := true }

/-- `TestWithoutValidationConfig(TestConfig)`: disables both validation
flags again, inheriting everything else. -/
def TestWithoutValidationConfig : ServerConfig :=
  { TestConfig with
    REQUEST_VALIDATION := false
    RESPONSE_VALIDATION := false }

/-! ## The runtime protocol object model

`ga4gh/protocol.py` and the generated `_protocol_definitions.py` are not
part of the provided sources.  The object model is modelled from the
specification (section 4.4): JSON values and protocol objects are trees;
`toJsonDict` walks an object, serialising a field's value recursively
exactly when the type descriptor's embedded-type map marks the field
embedded (dispatching on the runtime value to cover both the
scalar-embedded and sequence-embedded cases) and passing every other
value through unchanged; `fromJsonDict` builds the default object and
assigns each field present in the input mapping, recursively
constructing nested objects where the embedded-type map says so.

List and mapping nodes are spelled out as cons chains (`anil`/`acons`,
`fnil`/`fcons`, and on the object side `onil`/`ocons`, `lnil`/`lcons`)
so that every traversal below is plain structural recursion. -/

/-- A JSON value: null, boolean, integer or string scalars, arrays
(`jarr` over an `anil`/`acons` chain) and objects (`jdict` over an
`fnil`/`fcons` chain of key-value pairs). -/
inductive JVal where
  | jnull
  | jbool (b : Bool)
  | jint (n : Int)
  | jstr (s : String)
  | jarr (elts : JVal)
  | anil
  | acons (v : JVal) (rest : JVal)
  | jdict (kvs : JVal)
  | fnil
  | fcons (key : String) (v : JVal) (rest : JVal)
deriving DecidableEq

/-- Build a `jarr` chain from a list. -/
def jlist (l : List JVal) : JVal :=
  .jarr (l.foldr .acons .anil)

/-- Build a `jdict` chain from an association list. -/
def jobj (l : List (String × JVal)) : JVal :=
  .jdict (l.foldr (fun p r => .fcons p.1 p.2 r) .fnil)

/-- Modelled from the spec: the Python 2 `repr`/`str` rendering of a
JSON value as the exception messages interpolate it — `None` for null,
`u'...'` for (unicode) strings, square-bracketed comma-joined arrays,
brace-delimited `key: value` mappings with unicode keys. -/
def reprU : JVal → String
  | .jnull => "None"
  | .jbool true => "True"
  | .jbool false => "False"
  | .jint n => toString n
  | .jstr s => "u" ++ squote ++ s ++ squote
  | .jarr elts => "[" ++ reprU elts ++ "]"
  | .anil => ""
  | .acons v .anil => reprU v
  | .acons v rest => reprU v ++ ", " ++ reprU rest
  | .jdict kvs => "\x7b" ++ reprU kvs ++ "\x7d"
  | .fnil => ""
  | .fcons k v .fnil => "u" ++ squote ++ k ++ squote ++ ": " ++ reprU v
  | .fcons k v rest =>
    "u" ++ squote ++ k ++ squote ++ ": " ++ reprU v ++ ", " ++ reprU rest

/-- A protocol object value: `raw` wraps a pass-through JSON value (a
scalar or collection of scalars), `obj` an attribute chain
(`onil`/`ocons`), `arr` an element chain (`lnil`/`lcons`) of embedded
objects. -/
inductive PVal where
  | raw (j : JVal)
  | obj (attrs : PVal)
  | onil
  | ocons (name : String) (v : PVal) (rest : PVal)
  | arr (elts : PVal)
  | lnil
  | lcons (v : PVal) (rest : PVal)
deriving DecidableEq

/-- Modelled from the spec: one field of a type descriptor — its name,
the referenced type name when the embedded-type map marks it embedded,
and its construction default. -/
structure PField where
  name : String
  embedded : Option String
  dflt : PVal

/-- Modelled from the spec: a type descriptor is its (lexicographically
sorted) field list. -/
structure TypeDescriptor where
  fields : List PField

/-- Lookup in the embedded-type map (`isEmbeddedType`/`getEmbeddedType`
fused): the referenced type name of the named field, if embedded. -/
def embLookupFields : List PField → String → Option String
  | [], _ => none
  | f :: fs, n => if f.name == n then f.embedded else embLookupFields fs n

/-- The embedded-type lookup of one descriptor. -/
def embLookup (td : TypeDescriptor) (n : String) : Option String :=
  embLookupFields td.fields n

/-- Build an attribute chain from an association list. -/
def mkAttrs : List (String × PVal) → PVal
  | [] => .onil
  | p :: rest => .ocons p.1 p.2 (mkAttrs rest)

/-- The default-constructed object body of a descriptor: every slot set
to its declared default. -/
def defaultAttrs (td : TypeDescriptor) : PVal :=
  mkAttrs (td.fields.map (fun f => (f.name, f.dflt)))

/-- The attribute names of an object body chain. -/
def attrNames : PVal → List String
  | .ocons n _ rest => n :: attrNames rest
  | _ => []

/-- The keys of a mapping chain. -/
def kvsNames : JVal → List String
  | .fcons n _ rest => n :: kvsNames rest
  | _ => []

/-- The three traversal positions of serialisation: a field value with
its embedded-type entry, the attribute chain of an object of type `t`,
and the element chain of a sequence of embedded objects of type `t`. -/
inductive SerMode where
  | val (embT : Option String)
  | fields (t : String)
  | elems (t : String)

/-- Modelled from the spec: the generic `toJsonDict` traversal.  An
embedded field's object becomes a mapping of its serialised attributes;
an embedded field's sequence becomes an array of serialised elements; a
`raw` value passes through unchanged; the impossible remaining
combinations (an object in a non-embedded position, a chain node in
value position) produce null and are excluded by well-formedness. -/
def toJsonAux (env : String → TypeDescriptor) : SerMode → PVal → JVal
  | .val (some t), .obj attrs => .jdict (toJsonAux env (.fields t) attrs)
  | .val (some t), .arr elts => .jarr (toJsonAux env (.elems t) elts)
  | .val _, .raw j => j
  | .val _, _ => .jnull
  | .fields t, .ocons n v rest =>
    .fcons n (toJsonAux env (.val (embLookup (env t) n)) v)
      (toJsonAux env (.fields t) rest)
  | .fields _, _ => .fnil
  | .elems t, .lcons v rest =>
    .acons (toJsonAux env (.val (some t)) v) (toJsonAux env (.elems t) rest)
  | .elems _, _ => .anil

/-- `toJsonDict(obj)` for an object of record type `t`. -/
def toJsonDict (env : String → TypeDescriptor) (t : String) (o : PVal) : JVal :=
  toJsonAux env (.val (some t)) o

/-- Assign one attribute of an object body (`setattr`); a name absent
from the slots leaves the body unchanged. -/
def updateAttr : PVal → String → PVal → PVal
  | .ocons m w rest, n, v =>
    if m == n then .ocons m v rest else .ocons m w (updateAttr rest n v)
  | acc, _, _ => acc

/-- The three traversal positions of deserialisation: a field value with
its embedded-type entry, the element chain of a sequence of type `t`,
and the key-value chain of a mapping being assigned onto the
accumulated object body `acc` of type `t`. -/
inductive DeMode where
  | val (embT : Option String)
  | elems (t : String)
  | kvs (t : String) (acc : PVal)

/-- Modelled from the spec: the generic `fromJsonDict` traversal.  In an
embedded position a mapping constructs the default object of the
referenced type and assigns every present key in order, recursively
deserialising each value; an array in an embedded position deserialises
element-wise; everything else is assigned as-is.  This operation never
fails: malformed input is accepted structurally. -/
def fromJsonAux (env : String → TypeDescriptor) : DeMode → JVal → PVal
  | .val (some t), .jdict kvs =>
    .obj (fromJsonAux env (.kvs t (defaultAttrs (env t))) kvs)
  | .val (some t), .jarr elts => .arr (fromJsonAux env (.elems t) elts)
  | .val _, j => .raw j
  | .elems t, .acons v rest =>
    .lcons (fromJsonAux env (.val (some t)) v) (fromJsonAux env (.elems t) rest)
  | .elems _, _ => .lnil
  | .kvs t acc, .fcons n j rest =>
    fromJsonAux env
      (.kvs t (updateAttr acc n (fromJsonAux env (.val (embLookup (env t) n)) j)))
      rest
  | .kvs _ acc, _ => acc

/-- `fromJsonDict(mapping, T)` for record type `t`. -/
def fromJsonDict (env : String → TypeDescriptor) (j : JVal) (t : String) : PVal :=
  fromJsonAux env (.val (some t)) j

/-- The well-formedness judgement positions: a value sitting in a field
with the given embedded-type entry, an attribute chain matching the
remaining descriptor fields `fs` of type `t`, or an element chain of
embedded type `t`. -/
inductive WFMode where
  | val (embT : Option String)
  | fields (fs : List PField) (t : String)
  | elems (t : String)

/-- A well-formed protocol value, as the spec's "well-formed Protocol
Object": non-embedded fields hold pass-through values;
a nullable embedded field may hold null; an embedded object's attribute
chain matches its descriptor's fields name-for-name in order (with the
descriptor's field names distinct), each attribute value well-formed for
its field's embedded-type entry; embedded sequences hold well-formed
elements. -/
inductive WF (env : String → TypeDescriptor) : WFMode → PVal → Prop where
  | raw (j : JVal) : WF env (.val none) (.raw j)
  | rawNull (t : String) : WF env (.val (some t)) (.raw .jnull)
  | obj (t : String) (attrs : PVal)
      (hnd : ((env t).fields.map PField.name).Nodup)
      (h : WF env (.fields (env t).fields t) attrs) :
      WF env (.val (some t)) (.obj attrs)
  | arr (t : String) (elts : PVal) (h : WF env (.elems t) elts) :
      WF env (.val (some t)) (.arr elts)
  | fieldsNil (t : String) : WF env (.fields [] t) .onil
  | fieldsCons (t : String) (f : PField) (fs : List PField) (v rest : PVal)
      (hv : WF env (.val f.embedded) v)
      (hr : WF env (.fields fs t) rest) :
      WF env (.fields (f :: fs) t) (.ocons f.name v rest)
  | elemsNil (t : String) : WF env (.elems t) .lnil
  | elemsCons (t : String) (v rest : PVal)
      (hv : WF env (.val (some t)) v)
      (hr : WF env (.elems t) rest) :
      WF env (.elems t) (.lcons v rest)

/-! ## The concrete types exercised by the validation-failure tests

`protocol.SearchReadsRequest`, `SearchReadsResponse`, `ReadAlignment`
and `LinearAlignment` come from the generated protocol module, absent
from src/.  They are modelled from the spec with representative sorted
field lists (nested descriptors reduced to the fields the tests touch);
fields not marked in the embedded-type map are pass-through. -/

/-- Modelled from the spec: the descriptor environment for the types the
exception tests exercise. -/
def ga4ghEnv : String → TypeDescriptor
  | "SearchReadsRequest" =>
    ⟨[⟨"end", none, .raw .jnull⟩,
      ⟨"pageSize", none, .raw .jnull⟩,
      ⟨"pageToken", none, .raw .jnull⟩,
      ⟨"readGroupIds", none, .raw (.jarr .anil)⟩,
      ⟨"referenceId", none, .raw .jnull⟩,
      ⟨"referenceName", none, .raw .jnull⟩,
      ⟨"start", none, .raw (.jint 0)⟩]⟩
  | "SearchReadsResponse" =>
    ⟨[⟨"alignments", some "ReadAlignment", .arr .lnil⟩,
      ⟨"nextPageToken", none, .raw .jnull⟩]⟩
  | "ReadAlignment" =>
    ⟨[⟨"alignedSequence", none, .raw .jnull⟩,
      ⟨"alignment", some "LinearAlignment", .raw .jnull⟩,
      ⟨"id", none, .raw .jnull⟩]⟩
  | "LinearAlignment" =>
    ⟨[⟨"cigar", none, .raw (.jarr .anil)⟩,
      ⟨"mappingQuality", none, .raw .jnull⟩,
      ⟨"position", none, .raw .jnull⟩]⟩
  | _ => ⟨[]⟩

/-- The non-numeric string the tests assign to numeric fields. -/
def wrongString : String := "thisIsWrong"

/-- The test's `SearchReadsRequest` object: defaults everywhere except
`obj.start = "thisIsWrong"`. -/
def searchReadsRequestObj : PVal :=
  .obj (.ocons "end" (.raw .jnull)
    (.ocons "pageSize" (.raw .jnull)
      (.ocons "pageToken" (.raw .jnull)
        (.ocons "readGroupIds" (.raw (.jarr .anil))
          (.ocons "referenceId" (.raw .jnull)
            (.ocons "referenceName" (.raw .jnull)
              (.ocons "start" (.raw (.jstr wrongString)) .onil)))))))

/-- `obj.toJsonDict()` for the request test object. -/
def searchReadsRequestJson : JVal :=
  toJsonDict ga4ghEnv "SearchReadsRequest" searchReadsRequestObj

/-- The test's nested `LinearAlignment` with
`mappingQuality = "thisIsWrong"`. -/
def linearAlignmentObj : PVal :=
  .obj (.ocons "cigar" (.raw (.jarr .anil))
    (.ocons "mappingQuality" (.raw (.jstr wrongString))
      (.ocons "position" (.raw .jnull) .onil)))

/-- The test's `ReadAlignment` holding the invalid `LinearAlignment`. -/
def readAlignmentObj : PVal :=
  .obj (.ocons "alignedSequence" (.raw .jnull)
    (.ocons "alignment" linearAlignmentObj
      (.ocons "id" (.raw .jnull) .onil)))

/-- The test's `SearchReadsResponse` with
`alignments = [readAlignmentObj]`. -/
def searchReadsResponseObj : PVal :=
  .obj (.ocons "alignments" (.arr (.lcons readAlignmentObj .lnil))
    (.ocons "nextPageToken" (.raw .jnull) .onil))

/-- `obj.toJsonDict()` for the response test object. -/
def searchReadsResponseJson : JVal :=
  toJsonDict ga4ghEnv "SearchReadsResponse" searchReadsResponseObj

/-- Modelled from the spec: the Validation Report `validate` produces
for the request test input — the one field whose value fails its
declared (numeric) type, with the offending value. -/
def searchReadsRequestReport : JVal :=
  .jdict (.fcons "start" (.jstr wrongString) .fnil)

/-- Modelled from the spec: the Validation Report for the response test
input — the nested field whose value fails its declared (numeric)
type. -/
def searchReadsResponseReport : JVal :=
  .jdict (.fcons "mappingQuality" (.jstr wrongString) .fnil)

/-- Modelled from the spec: the message of
`RequestValidationFailureException(jsonDict, cls)` — the raw mapping is
interpolated, then the Validation Report is formatted after the
`invalid fields:` marker.  The repository runs under Python 2 with
`unicode_literals`, so both interpolations use the `u'...'` repr form
(`test_exceptions.py` asserts the `u`-prefixed text verbatim). -/
def requestValidationMessage (jsonDict report : JVal) (className : String) : String :=
  "Request " ++ squote ++ reprU jsonDict ++ squote
    ++ " is not a valid instance of " ++ className
    ++ "; invalid fields: " ++ reprU report

/-- Modelled from the spec: the message of
`ResponseValidationFailureException(jsonDict, cls)` — same construction,
distinctly prefixed with `Invalid fields`. -/
def responseValidationMessage (jsonDict report : JVal) (className : String) : String :=
  "Response " ++ squote ++ reprU jsonDict ++ squote
    ++ " is not a valid instance of " ++ className
    ++ "; Invalid fields: " ++ reprU report

/-- The concrete request-validation message of the test scenario. -/
def requestFailureMessage : String :=
  requestValidationMessage searchReadsRequestJson searchReadsRequestReport
    "SearchReadsRequest"

/-- The concrete response-validation message of the test scenario. -/
def responseFailureMessage : String :=
  responseValidationMessage searchReadsResponseJson searchReadsResponseReport
    "SearchReadsResponse"

/-- The substring claim C6 asserts the request message contains:
`invalid fields: {'start': 'thisIsWrong'}` (plain quotes, no `u`
prefixes). -/
def claimC6Pattern : String :=
  "invalid fields: \x7b" ++ squote ++ "start" ++ squote ++ ": "
    ++ squote ++ wrongString ++ squote ++ "\x7d"

/-- The substring the repository's own test asserts:
`invalid fields: {u'start': u'thisIsWrong'}`. -/
def testC6Pattern : String :=
  "invalid fields: \x7bu" ++ squote ++ "start" ++ squote ++ ": u"
    ++ squote ++ wrongString ++ squote ++ "\x7d"

/-! ## Theorems -/

/-- C4: every exception kind in the taxonomy has a non-null numeric
error code, and no two kinds share a code. -/
theorem exception_codes_nonNull_unique :
    (∀ k : ExceptionKind, (getErrorCode k).isSome = true) ∧
    (∀ k1 k2 : ExceptionKind, getErrorCode k1 = getErrorCode k2 → k1 = k2) := by
  constructor
  · intro k; cases k <;> rfl
  · intro k1 k2; cases k1 <;> cases k2 <;> decide

/-- C5: an exception outside the taxonomy always maps to transport
status 500 with the fixed `ServerError` code and message; the wire body
is a constant, independent of the original exception's class name and
message, so the original message never appears. -/
theorem unknown_exception_becomes_server_error (className msg : String) :
    handleException (.foreign className msg)
      = (500, ⟨(getErrorCode .serverError).getD 0, serverErrorMessage⟩) ∧
    (handleException (.foreign className msg)).2.message = serverErrorMessage ∧
    handleException (.foreign className msg) = handleException (.foreign "" "") :=
  ⟨rfl, rfl, rfl⟩

/-- C6 counterexample: the request-validation message of the test
scenario — which does contain the `u`-prefixed text the repository's own
test asserts — does NOT contain the claim's plain-quoted literal
`invalid fields: {'start': 'thisIsWrong'}`. -/
theorem requestValidationMessage_lacks_claimed_literal :
    containsSubstr requestFailureMessage claimC6Pattern = false ∧
    containsSubstr requestFailureMessage testC6Pattern = true := by
  constructor <;> decide

/-- C6 amended: the exception maps to status 400, its message contains
`invalid fields: {u'start': u'thisIsWrong'}` (the Python 2 unicode repr
the repository's test asserts), and the offending literal
`thisIsWrong` appears at least twice in the message. -/
theorem requestValidationFailure_message_spec :
    statusOf .requestValidationFailureException = 400 ∧
    containsSubstr requestFailureMessage testC6Pattern = true ∧
    2 ≤ countOccurrences requestFailureMessage wrongString := by
  refine ⟨rfl, by decide, by decide⟩

/-- C7: the response-validation exception maps to status 500, its
message contains the substring `Invalid fields`, and the offending
literal `thisIsWrong` appears at least twice in the message. -/
theorem responseValidationFailure_message_spec :
    statusOf .responseValidationFailureException = 500 ∧
    containsSubstr responseFailureMessage "Invalid fields" = true ∧
    2 ≤ countOccurrences responseFailureMessage wrongString := by
  refine ⟨rfl, by decide, by decide⟩

/-- C10: the default configuration disables both validation flags and
limits content length to 2*1024*1024 bytes; the test configuration
inherits the limit and enables both flags;
`TestWithoutValidationConfig` disables both again. -/
theorem serverconfig_spec :
    DefaultConfig.REQUEST_VALIDATION = false ∧
    DefaultConfig.RESPONSE_VALIDATION = false ∧
    DefaultConfig.MAX_CONTENT_LENGTH = 2 * 1024 * 1024 ∧
    TestConfig.MAX_CONTENT_LENGTH = DefaultConfig.MAX_CONTENT_LENGTH ∧
    TestConfig.REQUEST_VALIDATION = true ∧
    TestConfig.RESPONSE_VALIDATION = true ∧
    TestWithoutValidationConfig.MAX_CONTENT_LENGTH = DefaultConfig.MAX_CONTENT_LENGTH ∧
    TestWithoutValidationConfig.REQUEST_VALIDATION = false ∧
    TestWithoutValidationConfig.RESPONSE_VALIDATION = false :=
  ⟨rfl, rfl, rfl, rfl, rfl, rfl, rfl, rfl, rfl⟩

/-- `Except.map` returns `ok` exactly when its argument did. -/
theorem exceptMap_ok_iff {α β : Type} (f : α → β) (e : Except String α) (l : β) :
    e.map f = .ok l ↔ ∃ r, e = .ok r ∧ l = f r := by
  cases e <;> simp [Except.map, eq_comm]

/-- A record schema whose field `payload` is a THREE-branch union
`[null, record R, int]` — legal Avro, accepted and flagged by
`getEmbeddedTypes`, but not of any of the three shapes claim C1 allows
to be flagged. -/
def c1CexSchema : AvroSchema :=
  .record "Holder"
    [.mk "payload" (.union [.primitive "null", .record "R" [], .primitive "int"]) false "None"]

/-- C1 counterexample: on the three-branch union schema,
`getEmbeddedTypes` succeeds and flags `payload` as embedding `R`, while
the claim's own characterisation — which only flags two-branch
`{null, record}` unions — flags nothing; so extraction does not return
exactly the claimed pairs. -/
theorem getEmbeddedTypes_flags_three_branch_union :
    getEmbeddedTypes c1CexSchema = .ok [("payload", "R")] ∧
    claimedPairs c1CexSchema = [] := by
  constructor <;> rfl

/-- The loop of `getEmbeddedTypes` succeeds exactly when every field
passes union-shape checking, and then returns exactly the pairs of the
amended characterisation, in field order. -/
theorem embLoop_ok_iff (fields : List AvroField) (l : List (String × String)) :
    embLoop fields = .ok l ↔
      ((∀ f ∈ fields, unionShapeOk f = true) ∧
       l = fields.filterMap
         (fun f => (amendedEmbedded f).map (fun rn => (f.name, rn)))) := by
  induction fields generalizing l with
  | nil => simp [embLoop]
  | cons f rest ih =>
    rcases hft : f.ftype with ty | ⟨rn, rfs⟩ | ⟨en, syms⟩ | items | vals | branches | ⟨fn, sz⟩
    · simp [embLoop, hft, ih, unionShapeOk, amendedEmbedded, exceptMap_ok_iff]
    · simp [embLoop, hft, ih, unionShapeOk, amendedEmbedded, exceptMap_ok_iff] <;>
        exact ⟨fun ⟨r, ⟨ha, hr⟩, hl⟩ => ⟨ha, by rw [hl, hr]⟩,
               fun ⟨ha, hl⟩ => ⟨_, ⟨ha, rfl⟩, hl⟩⟩
    · simp [embLoop, hft, ih, unionShapeOk, amendedEmbedded, exceptMap_ok_iff]
    · rcases items with ty | ⟨rn, rfs⟩ | ⟨en, syms⟩ | items2 | vals | branches | ⟨fn, sz⟩ <;>
        simp [embLoop, hft, ih, unionShapeOk, amendedEmbedded, exceptMap_ok_iff] <;>
        exact ⟨fun ⟨r, ⟨ha, hr⟩, hl⟩ => ⟨ha, by rw [hl, hr]⟩,
               fun ⟨ha, hl⟩ => ⟨_, ⟨ha, rfl⟩, hl⟩⟩
    · simp [embLoop, hft, ih, unionShapeOk, amendedEmbedded, exceptMap_ok_iff]
    · rcases branches with _ | ⟨t0, _ | ⟨t1, brest⟩⟩
      · simp [embLoop, hft, unionShapeOk]
      · simp [embLoop, hft, unionShapeOk]
      · by_cases h0 : isNullPrimitive t0 = true
        · rcases t1 with ty | ⟨rn, rfs⟩ | ⟨en, syms⟩ | items | vals | branches2 | ⟨fn, sz⟩ <;>
            simp [embLoop, hft, ih, unionShapeOk, amendedEmbedded, exceptMap_ok_iff, h0] <;>
            exact ⟨fun ⟨r, ⟨ha, hr⟩, hl⟩ => ⟨ha, by rw [hl, hr]⟩,
                   fun ⟨ha, hl⟩ => ⟨_, ⟨ha, rfl⟩, hl⟩⟩
        · simp [embLoop, hft, unionShapeOk, h0]
    · simp [embLoop, hft, ih, unionShapeOk, amendedEmbedded, exceptMap_ok_iff]

/-- C1 amended: for every record schema, `getEmbeddedTypes` returns a
list exactly when every union-typed field has at least two branches with
the null primitive first, and that list holds exactly the pairs for
fields that are a direct record, an array of records, or a union of at
least two branches with null first and a record second; whenever some
union field fails shape checking, extraction fails with an error. -/
theorem getEmbeddedTypes_record_spec (n : String) (fs : List AvroField)
    (l : List (String × String)) :
    (getEmbeddedTypes (.record n fs) = .ok l ↔
      ((∀ f ∈ getFields (AvroSchema.record n fs), unionShapeOk f = true) ∧
       l = amendedPairs (.record n fs))) ∧
    ((∃ f ∈ getFields (AvroSchema.record n fs), unionShapeOk f = false) →
      ∃ e, getEmbeddedTypes (.record n fs) = .error e) := by
  constructor
  · simpa [getEmbeddedTypes, amendedPairs] using
      embLoop_ok_iff (getFields (.record n fs)) l
  · rintro ⟨f, hf, hbad⟩
    rcases he : getEmbeddedTypes (.record n fs) with e | r
    · exact ⟨e, rfl⟩
    · have := ((embLoop_ok_iff (getFields (.record n fs)) r).mp he).1 f hf
      rw [hbad] at this
      cases this

/-- C3: for every record schema (with, as Avro guarantees, distinct
field names), the emitted `requiredFields` set holds exactly the names
of fields carrying no default value, is a subset of the field-name set,
and every field is in exactly one of has-default / required. -/
theorem requiredFields_spec (n : String) (fs : List AvroField)
    (hnd : ((getFields (AvroSchema.record n fs)).map AvroField.name).Nodup) :
    (∀ x, x ∈ requiredFieldNames (.record n fs) ↔
       ∃ f ∈ getFields (AvroSchema.record n fs), f.name = x ∧ f.hasDefault = false) ∧
    (∀ x ∈ requiredFieldNames (.record n fs),
       x ∈ (getFields (AvroSchema.record n fs)).map AvroField.name) ∧
    (∀ f ∈ getFields (AvroSchema.record n fs),
       (f.name ∈ requiredFieldNames (.record n fs) ↔ f.hasDefault = false)) := by
  refine ⟨?_, ?_, ?_⟩
  · intro x
    simp only [requiredFieldNames, requiredFieldsList, List.mem_map, List.mem_filter,
      decide_eq_true_eq]
    constructor
    · rintro ⟨f, ⟨hf, hd⟩, rfl⟩; exact ⟨f, hf, rfl, hd⟩
    · rintro ⟨f, hf, rfl, hd⟩; exact ⟨f, ⟨hf, hd⟩, rfl⟩
  · intro x hx
    simp only [requiredFieldNames, requiredFieldsList, List.mem_map,
      List.mem_filter, decide_eq_true_eq] at hx
    rcases hx with ⟨f, ⟨hf, _⟩, rfl⟩
    exact List.mem_map_of_mem _ hf
  · intro f hf
    constructor
    · intro hmem
      simp only [requiredFieldNames, requiredFieldsList, List.mem_map,
        List.mem_filter, decide_eq_true_eq] at hmem
      rcases hmem with ⟨g, ⟨hg, hgd⟩, hname⟩
      have : g = f := List.inj_on_of_nodup_map hnd hg hf hname
      rw [← this]; exact hgd
    · intro hd
      simp only [requiredFieldNames, requiredFieldsList, List.mem_map, List.mem_filter,
      decide_eq_true_eq]
      exact ⟨f, ⟨hf, hd⟩, rfl⟩

/-- A small record schema exercising `requiredFields_spec`: one field
with a default, one without. -/
def c3DemoFields : List AvroField :=
  [.mk "id" (.primitive "string") false "None",
   .mk "pageSize" (.primitive "int") true "None"]

/-- Witness for C3 at a concrete schema. -/
theorem requiredFields_spec_witness :
    (∀ x, x ∈ requiredFieldNames (.record "Demo" c3DemoFields) ↔
       ∃ f ∈ getFields (AvroSchema.record "Demo" c3DemoFields),
         f.name = x ∧ f.hasDefault = false) ∧
    (∀ x ∈ requiredFieldNames (.record "Demo" c3DemoFields),
       x ∈ (getFields (AvroSchema.record "Demo" c3DemoFields)).map AvroField.name) ∧
    (∀ f ∈ getFields (AvroSchema.record "Demo" c3DemoFields),
       (f.name ∈ requiredFieldNames (.record "Demo" c3DemoFields) ↔
         f.hasDefault = false)) :=
  requiredFields_spec "Demo" c3DemoFields (by decide)

/-- C2: route pairing is positional — the i-th emitted route tuple pairs
the i-th name matching `Search.+Request` with the i-th name matching
`Search.+Response` (in encounter order, regardless of the `<X>`
substrings), there are exactly `min` of the two counts of tuples, and
each tuple's wire path is `/` ++ the request's captured `<X>`
lower-cased ++ `/search`. -/
theorem postSignatures_spec (names : List String) (i : Nat)
    (h : i < (postSignatures names).length) :
    (postSignatures names).length
        = min (requestClassNames names).length (responseClassNames names).length ∧
    ∃ x, searchGroup "Request" ((requestClassNames names).getD i "") = some x ∧
      (postSignatures names).getD i ("", "", "")
        = ("/" ++ strLower x ++ "/search",
           (requestClassNames names).getD i "",
           (responseClassNames names).getD i "") := by
  have hlen : (postSignatures names).length
      = min (requestClassNames names).length (responseClassNames names).length := by
    simp [postSignatures]
  refine ⟨hlen, ?_⟩
  have hmin : i < min (requestClassNames names).length (responseClassNames names).length :=
    hlen ▸ h
  have hi1 : i < (requestClassNames names).length :=
    lt_of_lt_of_le hmin (min_le_left _ _)
  have hi2 : i < (responseClassNames names).length :=
    lt_of_lt_of_le hmin (min_le_right _ _)
  have hmem : (requestClassNames names)[i] ∈ requestClassNames names :=
    List.getElem_mem _
  have hfil : (requestClassNames names)[i] ∈ names.filter matchesSearchRequest := hmem
  have hmatch : matchesSearchRequest ((requestClassNames names)[i]) = true :=
    (List.mem_filter.mp hfil).2
  obtain ⟨x, hx⟩ := Option.isSome_iff_exists.mp hmatch
  have hz : i < ((requestClassNames names).zip (responseClassNames names)).length := by
    simpa [List.length_zip] using hmin
  have hpost : (postSignatures names).getD i ("", "", "")
      = (mkSearchUrl ((requestClassNames names)[i]),
         (requestClassNames names)[i], (responseClassNames names)[i]) := by
    rw [List.getD_eq_getElem?_getD, List.getElem?_eq_getElem h]
    simp [postSignatures, List.getElem_map, List.getElem_zip]
  refine ⟨x, ?_, ?_⟩
  · rw [List.getD_eq_getElem?_getD, List.getElem?_eq_getElem hi1]
    exact hx
  · rw [hpost, List.getD_eq_getElem?_getD, List.getElem?_eq_getElem hi1,
      List.getD_eq_getElem?_getD, List.getElem?_eq_getElem hi2]
    simp [mkSearchUrl, hx]

/-- A class-name list exercising the route-pair derivation, with an
unmatched name interleaved. -/
def c2DemoNames : List String :=
  ["SearchReadsRequest", "SearchVariantsRequest", "ReadGroupSet",
   "SearchReadsResponse", "SearchVariantsResponse"]

/-- Witness for C2 at a concrete name list and index 0. -/
theorem postSignatures_spec_witness :
    0 < (postSignatures c2DemoNames).length ∧
    ((postSignatures c2DemoNames).length
        = min (requestClassNames c2DemoNames).length
            (responseClassNames c2DemoNames).length ∧
     ∃ x, searchGroup "Request" ((requestClassNames c2DemoNames).getD 0 "") = some x ∧
       (postSignatures c2DemoNames).getD 0 ("", "", "")
         = ("/" ++ strLower x ++ "/search",
            (requestClassNames c2DemoNames).getD 0 "",
            (responseClassNames c2DemoNames).getD 0 "")) :=
  ⟨by decide, postSignatures_spec c2DemoNames 0 (by decide)⟩

/-- Membership is preserved by stable insertion. -/
theorem mem_insertLe {α : Type} (le : α → α → Bool) (x a : α) (l : List α) :
    a ∈ insertLe le x l ↔ a = x ∨ a ∈ l := by
  induction l with
  | nil => simp [insertLe]
  | cons y ys ih =>
    by_cases hc : le x y = true
    · simp [insertLe, hc]
    · rw [Bool.not_eq_true] at hc
      simp only [insertLe, hc, Bool.false_eq_true, if_false, List.mem_cons, ih]
      tauto

/-- Membership is preserved by the stable sort. -/
theorem mem_sortLe {α : Type} (le : α → α → Bool) (a : α) (l : List α) :
    a ∈ sortLe le l ↔ a ∈ l := by
  induction l with
  | nil => simp [sortLe]
  | cons x xs ih =>
    rw [show sortLe le (x :: xs) = insertLe le x (sortLe le xs) from rfl,
      mem_insertLe]
    simp [ih]

/-- A class never writes the `postMethods` table — only
`SchemaGenerator.write` does, after every class. -/
theorem classChunks_no_postMethods (c : SchemaClass)
    (sigs : List (String × String × String)) :
    Chunk.postMethods sigs ∉ (classChunks c).1 := by
  rcases c with ⟨s⟩
  rcases s with ty | ⟨n, flds⟩ | ⟨n, syms⟩ | items | vals | branches | ⟨n, sz⟩
  · simp [classChunks, schemaName]
  · rcases he : getEmbeddedTypes (.record n flds) with e | pairs <;>
      simp [classChunks, he]
  · simp [classChunks]
  · simp [classChunks, schemaName]
  · simp [classChunks, schemaName]
  · simp [classChunks, schemaName]
  · simp [classChunks, schemaName]

/-- The class-emission loop never writes the `postMethods` table. -/
theorem writeClasses_no_postMethods (cs : List SchemaClass) (ns : List String)
    (sigs : List (String × String × String)) :
    Chunk.postMethods sigs ∉ (writeClasses cs ns).1 := by
  induction ns with
  | nil => simp [writeClasses]
  | cons n rest ih =>
    rcases hc : classForName cs n with _ | c
    · simpa [writeClasses, hc] using ih
    · rcases hcc : classChunks c with ⟨chunks, err⟩
      have hnc : Chunk.postMethods sigs ∉ chunks := by
        have := classChunks_no_postMethods c sigs
        rw [hcc] at this; exact this
      rcases err with _ | e
      · simp only [writeClasses, hc, hcc, List.mem_append]
        rintro (h1 | h2)
        · exact hnc h1
        · exact ih h2
      · simpa [writeClasses, hc, hcc] using hnc

/-- The class-emission loop aborts with an error exactly when some
emitted class's own write aborts. -/
theorem writeClasses_error_iff (cs : List SchemaClass) (ns : List String) :
    (writeClasses cs ns).2.isSome = true ↔
      ∃ n ∈ ns, ∃ c, classForName cs n = some c ∧
        (classChunks c).2.isSome = true := by
  induction ns with
  | nil => simp [writeClasses]
  | cons n rest ih =>
    rcases hc : classForName cs n with _ | c
    · simp [writeClasses, hc, ih]
    · rcases hcc : classChunks c with ⟨chunks, err⟩
      rcases err with _ | e
      · simp [writeClasses, hc, hcc, ih]
      · simp only [writeClasses, hc, hcc, Option.isSome_some, true_iff]
        exact ⟨n, by simp, c, hc, by simp [hcc]⟩

/-- C9 counterexample: a single record schema whose first union branch
is a record (not null) makes the write abort, yet the header and the
whole class prefix up to the embedded-types prologue are already
emitted — the output is partial, not empty. -/
def badSchemaClass : SchemaClass :=
  ⟨.record "Bad" [.mk "payload" (.union [.record "R" [], .primitive "null"]) false "None"]⟩

/-- C9 counterexample: on `badSchemaClass` the generation run aborts
with the union-shape error, and the chunks already written are a
non-empty strict prefix of a class definition (no embedded-types body,
no constructor, no `postMethods` table). -/
theorem generatorWrite_partial_output :
    (generatorWrite "v0.5.1" [badSchemaClass]).2
        = some "Schema union assumptions violated" ∧
    (generatorWrite "v0.5.1" [badSchemaClass]).1
      = [.header "v0.5.1", .classDef "Bad" "ProtocolElement",
         .docString "No documentation", .schemaSource "Bad",
         .requiredFields "set([\"payload\"])", .embeddedPrologue] := by
  constructor <;> rfl

/-- C9 amended: an extraction error in any emitted class makes the run
fail fatally — the generator reports the error and never reaches the
`postMethods` table (so the module is never completed) — but the chunks
written before the failure are emitted, not rolled back. -/
theorem generatorWrite_fatal (version : String) (cs : List SchemaClass) :
    ((generatorWrite version cs).2.isSome = true ↔
      ∃ n ∈ cs.map SchemaClass.name, ∃ c, classForName cs n = some c ∧
        (classChunks c).2.isSome = true) ∧
    (∀ sigs, Chunk.postMethods sigs ∈ (generatorWrite version cs).1 →
      (generatorWrite version cs).2 = none) := by
  have hmem : ∀ n, n ∈ sortLe strLe (cs.map SchemaClass.name)
      ↔ n ∈ cs.map SchemaClass.name := fun n => mem_sortLe _ _ _
  rcases hb : writeClasses cs (sortLe strLe (cs.map SchemaClass.name)) with ⟨body, err⟩
  rcases err with _ | e
  · constructor
    · simp only [generatorWrite, hb, Option.isSome_none, Bool.false_eq_true, false_iff]
      rintro ⟨n, hn, c, hc, hbad⟩
      have := (writeClasses_error_iff cs (sortLe strLe (cs.map SchemaClass.name))).mpr
        ⟨n, (hmem n).mpr hn, c, hc, hbad⟩
      rw [hb] at this
      simp at this
    · intro sigs _
      simp [generatorWrite, hb]
  · constructor
    · simp only [generatorWrite, hb, Option.isSome_some, true_iff]
      have := (writeClasses_error_iff cs (sortLe strLe (cs.map SchemaClass.name))).mp
        (by rw [hb]; rfl)
      obtain ⟨n, hn, c, hc, hbad⟩ := this
      exact ⟨n, (hmem n).mp hn, c, hc, hbad⟩
    · intro sigs hpm
      exfalso
      simp only [generatorWrite, hb, List.mem_cons, List.mem_append] at hpm
      rcases hpm with h1 | h2
      · cases h1
      · have := writeClasses_no_postMethods cs (sortLe strLe (cs.map SchemaClass.name)) sigs
        rw [hb] at this
        exact this h2

/-- Witness for C9 at the concrete failing class list. -/
theorem generatorWrite_fatal_witness :
    (generatorWrite "v0.5.1" [badSchemaClass]).2.isSome = true :=
  (generatorWrite_fatal "v0.5.1" [badSchemaClass]).1.mpr
    ⟨"Bad", by simp [SchemaClass.name, schemaName, badSchemaClass],
     badSchemaClass, rfl, rfl⟩

/-- Deserialising in a non-embedded position is the identity wrapped in
`raw`, whatever the JSON value. -/
theorem fromJson_val_none (env : String → TypeDescriptor) (j : JVal) :
    fromJsonAux env (.val none) j = .raw j := by
  cases j <;> rfl

/-- Attribute names of a well-formed attribute chain are the descriptor
field names, in order. -/
theorem wf_attrNames (env : String → TypeDescriptor) (m : WFMode) (v : PVal)
    (h : WF env m v) :
    ∀ fs t, m = WFMode.fields fs t → attrNames v = fs.map PField.name := by
  induction h with
  | raw j => intro fs t heq; cases heq
  | rawNull t => intro fs t2 heq; cases heq
  | obj t attrs hnd hf ihf => intro fs t2 heq; cases heq
  | arr t elts he ihe => intro fs t2 heq; cases heq
  | fieldsNil t => intro fs t2 heq; cases heq; rfl
  | fieldsCons t f fs v rest hv hr ihv ihr =>
    intro fs2 t2 heq; cases heq
    simp [attrNames, ihr fs t rfl]
  | elemsNil t => intro fs t2 heq; cases heq
  | elemsCons t v rest hv hr ihv ihr => intro fs t2 heq; cases heq

/-- The keys of a serialised attribute chain are its attribute names. -/
theorem kvsNames_toJson_fields (env : String → TypeDescriptor) (t : String)
    (attrs : PVal) :
    kvsNames (toJsonAux env (.fields t) attrs) = attrNames attrs := by
  induction attrs <;> simp [toJsonAux, kvsNames, attrNames, *]

/-- Assigning the attribute at the head of the chain. -/
theorem updateAttr_head (n : String) (w v rest : PVal) :
    updateAttr (.ocons n w rest) n v = .ocons n v rest := by
  simp [updateAttr]

/-- Assigning an attribute deeper in the chain leaves the head alone. -/
theorem updateAttr_skip (m n : String) (hne : m ≠ n) (w v rest : PVal) :
    updateAttr (.ocons m w rest) n v = .ocons m w (updateAttr rest n v) := by
  simp [updateAttr, hne]

/-- Assignments whose keys avoid the head attribute leave it
untouched. -/
theorem fromJson_kvs_frame (env : String → TypeDescriptor) (t : String)
    (kvs : JVal) :
    ∀ (m : String) (w acc : PVal), m ∉ kvsNames kvs →
      fromJsonAux env (.kvs t (.ocons m w acc)) kvs
        = .ocons m w (fromJsonAux env (.kvs t acc) kvs) := by
  induction kvs
  case fcons n j rest ihj ihrest =>
    intro m w acc hm
    simp only [kvsNames, List.mem_cons, not_or] at hm
    rw [show fromJsonAux env (.kvs t (.ocons m w acc)) (.fcons n j rest)
        = fromJsonAux env (.kvs t (updateAttr (.ocons m w acc) n
            (fromJsonAux env (.val (embLookup (env t) n)) j))) rest from rfl,
      updateAttr_skip m n hm.1 _ _ _,
      ihrest m w _ hm.2]
    rfl
  all_goals intro m w acc hm; rfl

/-- With distinct field names, the embedded-type lookup of a member
field returns that field's own entry. -/
theorem embLookupFields_eq (l : List PField) (f : PField) (hmem : f ∈ l)
    (hnd : (l.map PField.name).Nodup) :
    embLookupFields l f.name = f.embedded := by
  induction l with
  | nil => cases hmem
  | cons g gs ih =>
    rcases List.mem_cons.mp hmem with heq | hmem2
    · subst heq; simp [embLookupFields]
    · have hgne : g.name ≠ f.name := by
        intro he
        have h1 : f.name ∈ gs.map PField.name := List.mem_map_of_mem _ hmem2
        rw [← he] at h1
        exact (List.nodup_cons.mp (by simpa using hnd)).1 h1
      simp only [embLookupFields, beq_iff_eq, hgne, if_false]
      exact ih hmem2 (List.nodup_cons.mp (by simpa using hnd)).2

/-- The attribute names of a built chain are the keys of the
association list. -/
theorem attrNames_mkAttrs (l : List (String × PVal)) :
    attrNames (mkAttrs l) = l.map Prod.fst := by
  induction l with
  | nil => rfl
  | cons p rest ih => simp [mkAttrs, attrNames, ih]

/-- The round-trip motive, one statement per traversal position: values
deserialise back to themselves; a serialised attribute chain, assigned
over any accumulator chain carrying exactly the descriptor's field
names, rebuilds the original attributes; element chains deserialise
element-wise. -/
def RT (env : String → TypeDescriptor) : WFMode → PVal → Prop
  | .val e, v => fromJsonAux env (.val e) (toJsonAux env (.val e) v) = v
  | .fields fs t, attrs =>
    (fs.map PField.name).Nodup →
    (∀ f ∈ fs, embLookupFields (env t).fields f.name = f.embedded) →
    ∀ accL : List (String × PVal), accL.map Prod.fst = fs.map PField.name →
      fromJsonAux env (.kvs t (mkAttrs accL)) (toJsonAux env (.fields t) attrs)
        = attrs
  | .elems t, elts =>
    fromJsonAux env (.elems t) (toJsonAux env (.elems t) elts) = elts

/-- Serialisation followed by deserialisation is the identity on
well-formed values, in every traversal position. -/
theorem rt_gen (env : String → TypeDescriptor) (m : WFMode) (v : PVal)
    (h : WF env m v) : RT env m v := by
  induction h with
  | raw j =>
    show fromJsonAux env (.val none) (toJsonAux env (.val none) (.raw j)) = .raw j
    exact fromJson_val_none env j
  | rawNull t => rfl
  | obj t attrs hnd hf ihf =>
    show fromJsonAux env (.val (some t))
        (toJsonAux env (.val (some t)) (.obj attrs)) = .obj attrs
    rw [show toJsonAux env (.val (some t)) (.obj attrs)
        = .jdict (toJsonAux env (.fields t) attrs) from rfl,
      show fromJsonAux env (.val (some t)) (.jdict (toJsonAux env (.fields t) attrs))
        = .obj (fromJsonAux env (.kvs t (defaultAttrs (env t)))
            (toJsonAux env (.fields t) attrs)) from rfl]
    have hlook : ∀ f ∈ (env t).fields,
        embLookupFields (env t).fields f.name = f.embedded :=
      fun f hf2 => embLookupFields_eq _ f hf2 hnd
    have := ihf hnd hlook ((env t).fields.map (fun f => (f.name, f.dflt)))
      (by simp)
    rw [show defaultAttrs (env t)
        = mkAttrs ((env t).fields.map (fun f => (f.name, f.dflt))) from rfl, this]
  | arr t elts he ihe =>
    show fromJsonAux env (.val (some t))
        (toJsonAux env (.val (some t)) (.arr elts)) = .arr elts
    rw [show toJsonAux env (.val (some t)) (.arr elts)
        = .jarr (toJsonAux env (.elems t) elts) from rfl,
      show fromJsonAux env (.val (some t)) (.jarr (toJsonAux env (.elems t) elts))
        = .arr (fromJsonAux env (.elems t) (toJsonAux env (.elems t) elts)) from rfl]
    rw [show fromJsonAux env (.elems t) (toJsonAux env (.elems t) elts) = elts from ihe]
  | fieldsNil t =>
    intro hnd hlook accL haccL
    have haccnil : accL = [] := by
      cases accL with
      | nil => rfl
      | cons p r => simp at haccL
    subst haccnil
    rfl
  | fieldsCons t f fs v rest hv hr ihv ihr =>
    intro hnd hlook accL haccL
    rcases accL with _ | ⟨⟨a1, a2⟩, accL2⟩
    · simp at haccL
    · simp only [List.map_cons] at haccL
      have ha1 : a1 = f.name := by
        have := congrArg (fun l => l.headI) haccL
        simpa using this
      have haccL2 : accL2.map Prod.fst = fs.map PField.name := by
        have := congrArg List.tail haccL
        simpa using this
      subst ha1
      have hnd2 : f.name ∉ fs.map PField.name ∧ (fs.map PField.name).Nodup :=
        List.nodup_cons.mp (by simpa using hnd)
      have hemb : embLookup (env t) f.name = f.embedded :=
        hlook f (List.mem_cons_self f fs)
      rw [show toJsonAux env (.fields t) (.ocons f.name v rest)
          = .fcons f.name (toJsonAux env (.val (embLookup (env t) f.name)) v)
              (toJsonAux env (.fields t) rest) from rfl,
        hemb,
        show fromJsonAux env (.kvs t (mkAttrs ((f.name, a2) :: accL2)))
            (.fcons f.name (toJsonAux env (.val f.embedded) v)
              (toJsonAux env (.fields t) rest))
          = fromJsonAux env (.kvs t (updateAttr (.ocons f.name a2 (mkAttrs accL2))
              f.name (fromJsonAux env (.val (embLookup (env t) f.name))
                (toJsonAux env (.val f.embedded) v))))
              (toJsonAux env (.fields t) rest) from rfl,
        hemb,
        show fromJsonAux env (.val f.embedded)
            (toJsonAux env (.val f.embedded) v) = v from ihv,
        updateAttr_head]
      have hnotin : f.name ∉ kvsNames (toJsonAux env (.fields t) rest) := by
        rw [kvsNames_toJson_fields, wf_attrNames env _ _ hr fs t rfl]
        exact hnd2.1
      rw [fromJson_kvs_frame env t _ f.name v (mkAttrs accL2) hnotin]
      have hlook2 : ∀ g ∈ fs, embLookupFields (env t).fields g.name = g.embedded :=
        fun g hg => hlook g (List.mem_cons_of_mem f hg)
      rw [ihr hnd2.2 hlook2 accL2 haccL2]
  | elemsNil t => rfl
  | elemsCons t v rest hv hr ihv ihr =>
    show fromJsonAux env (.elems t) (toJsonAux env (.elems t) (.lcons v rest))
        = .lcons v rest
    rw [show toJsonAux env (.elems t) (.lcons v rest)
        = .acons (toJsonAux env (.val (some t)) v)
            (toJsonAux env (.elems t) rest) from rfl,
      show fromJsonAux env (.elems t)
          (.acons (toJsonAux env (.val (some t)) v) (toJsonAux env (.elems t) rest))
        = .lcons (fromJsonAux env (.val (some t)) (toJsonAux env (.val (some t)) v))
            (fromJsonAux env (.elems t) (toJsonAux env (.elems t) rest)) from rfl,
      show fromJsonAux env (.val (some t)) (toJsonAux env (.val (some t)) v) = v
        from ihv,
      show fromJsonAux env (.elems t) (toJsonAux env (.elems t) rest) = rest
        from ihr]

/-- C8: for every well-formed Protocol Object `o` of record type `t`,
`fromJsonDict (toJsonDict o) t` is (deep-)equal to `o`. -/
theorem fromJsonDict_toJsonDict_id (env : String → TypeDescriptor) (t : String)
    (o : PVal) (h : WF env (.val (some t)) o) :
    fromJsonDict env (toJsonDict env t o) t = o :=
  rt_gen env (.val (some t)) o h

/-- A two-type descriptor environment for exercising the round-trip:
`Outer` embeds one `Inner` directly and a sequence of `Inner`s. -/
def demoEnv : String → TypeDescriptor
  | "Inner" => ⟨[⟨"x", none, .raw .jnull⟩]⟩
  | "Outer" => ⟨[⟨"child", some "Inner", .raw .jnull⟩,
                 ⟨"items", some "Inner", .arr .lnil⟩,
                 ⟨"tag", none, .raw .jnull⟩]⟩
  | _ => ⟨[]⟩

/-- A concrete well-formed `Outer` object with a nested child, a
one-element embedded sequence and a scalar tag. -/
def demoObj : PVal :=
  .obj (.ocons "child" (.obj (.ocons "x" (.raw (.jstr "hi")) .onil))
    (.ocons "items" (.arr (.lcons (.obj (.ocons "x" (.raw .jnull) .onil)) .lnil))
      (.ocons "tag" (.raw (.jint 7)) .onil)))

/-- Witness for C8 at the concrete environment and object. -/
theorem fromJsonDict_toJsonDict_id_witness :
    fromJsonDict demoEnv (toJsonDict demoEnv "Outer" demoObj) "Outer" = demoObj :=
  fromJsonDict_toJsonDict_id demoEnv "Outer" demoObj
    (WF.obj "Outer" _ (by decide)
      (WF.fieldsCons "Outer" ⟨"child", some "Inner", .raw .jnull⟩ _ _ _
        (WF.obj "Inner" _ (by decide)
          (WF.fieldsCons "Inner" ⟨"x", none, .raw .jnull⟩ [] _ _
            (WF.raw _) (WF.fieldsNil "Inner")))
        (WF.fieldsCons "Outer" ⟨"items", some "Inner", .arr .lnil⟩ _ _ _
          (WF.arr "Inner" _
            (WF.elemsCons "Inner" _ _
              (WF.obj "Inner" _ (by decide)
                (WF.fieldsCons "Inner" ⟨"x", none, .raw .jnull⟩ [] _ _
                  (WF.raw _) (WF.fieldsNil "Inner")))
              (WF.elemsNil "Inner")))
          (WF.fieldsCons "Outer" ⟨"tag", none, .raw .jnull⟩ [] _ _
            (WF.raw _) (WF.fieldsNil "Outer")))))

/-- Witness for the amended C1 characterisation at the three-branch
union schema. -/
theorem getEmbeddedTypes_record_spec_witness :
    getEmbeddedTypes (.record "Holder"
      [.mk "payload" (.union [.primitive "null", .record "R" [], .primitive "int"])
        false "None"]) = .ok [("payload", "R")] :=
  (getEmbeddedTypes_record_spec "Holder"
    [.mk "payload" (.union [.primitive "null", .record "R" [], .primitive "int"])
      false "None"] [("payload", "R")]).1.mpr ⟨by decide, by rfl⟩
